import Mathlib

set_option maxRecDepth 100000

/-!
Shallow embedding of the resilience wrapper in `Q4.py`: a token-bucket rate
limiter with dynamic rate adjustment (`DynamicRateLimiter`), a time-based
circuit breaker (`CircuitBreaker`), a bounded dead-letter queue
(`deque(maxlen=...)`), and the retry decorator `resilient`/`wrapper`.

Modelling conventions:
- Python floats and `time.time()` timestamps are modelled as rationals (`ℚ`);
  no floating-point rounding is at issue in any of the properties considered.
- The thread lock in `DynamicRateLimiter` is dropped: each operation is
  modelled as an atomic state transformation, which is exactly what the lock
  guarantees for a single operation.
- `acquire` blocks by polling; each iteration of its `while True` loop is one
  observable step, parameterised by the wall-clock time at which it runs.
- Exceptions are modelled by their `str(e)` message, because the code itself
  classifies exceptions only by substring matching on `str(e)`.
-/

namespace Q4

/-- State of `DynamicRateLimiter` (Q4.py lines 6-30): token bucket with a
mutable refill rate.  `ts` is the last-refill timestamp. -/
structure DynamicRateLimiter where
  rate : ℚ
  capacity : ℚ
  tokens : ℚ
  ts : ℚ
deriving DecidableEq, Repr

namespace DynamicRateLimiter

/-- `set_rate` (lines 13-16): replaces the rate, clamped below by `0.001`. -/
def set_rate (l : DynamicRateLimiter) (rps : ℚ) : DynamicRateLimiter :=
  { l with rate := max (1/1000) rps }

/-- One iteration of the `while True` loop of `acquire` (lines 20-28), run at
wall-clock time `now`: refill `(now - ts) * rate` tokens capped at `capacity`,
record the refill timestamp, and deduct `n` tokens when enough are stored.
Returns the new state and whether the acquisition succeeded (i.e. whether the
Python loop `return`s on this iteration). -/
def acquirePoll (l : DynamicRateLimiter) (now : ℚ) (n : ℕ) : DynamicRateLimiter × Bool :=
  let tokens' := min l.capacity (l.tokens + (now - l.ts) * l.rate)
  if (n : ℚ) ≤ tokens' then
    ({ l with tokens := tokens' - n, ts := now }, true)
  else
    ({ l with tokens := tokens', ts := now }, false)

/-- `acquire n` (lines 18-30) run over a given list of poll times: it iterates
`acquirePoll` until one iteration succeeds.  The Boolean records whether the
acquisition succeeded within the given poll times; the real code keeps polling
forever, so runs in which it returns `false` model a still-blocked call. -/
def acquire (l : DynamicRateLimiter) (n : ℕ) : List ℚ → DynamicRateLimiter × Bool
  | [] => (l, false)
  | t :: ts =>
    let r := l.acquirePoll t n
    if r.2 then r else acquire r.1 n ts

end DynamicRateLimiter

/-- One interleaved operation on a `DynamicRateLimiter`: a `set_rate` call or
one polling iteration of some `acquire n` call observed at time `now`. -/
inductive LimOp where
  | set_rate (rps : ℚ)
  | poll (now : ℚ) (n : ℕ)
deriving DecidableEq, Repr

/-- Effect of one operation on the limiter state. -/
def limStep (l : DynamicRateLimiter) : LimOp → DynamicRateLimiter
  | .set_rate r => l.set_rate r
  | .poll now n => (l.acquirePoll now n).1

/-- Run a trace of interleaved limiter operations. -/
def limRun (l : DynamicRateLimiter) (ops : List LimOp) : DynamicRateLimiter :=
  ops.foldl limStep l

/-- Wellformedness of one operation against the current limiter state:
wall-clock time never runs backwards (a poll's `now` is at least the
limiter's last-refill timestamp) and every acquisition requests at least one
token. -/
def limOpOK (l : DynamicRateLimiter) : LimOp → Bool
  | .poll now n => decide (l.ts ≤ now) && decide (1 ≤ n)
  | .set_rate _ => true

/-- Wellformedness of a trace of interleaved limiter operations. -/
def limWF (l : DynamicRateLimiter) : List LimOp → Bool
  | [] => true
  | op :: rest => limOpOK l op && limWF (limStep l op) rest

/-- The token-bucket invariant: stored tokens lie in `[0, capacity]` and the
rate is nonnegative (construction takes `rps > 0`; `set_rate` clamps). -/
def limInv (l : DynamicRateLimiter) : Bool :=
  decide (0 ≤ l.tokens) && decide (l.tokens ≤ l.capacity) && decide (0 ≤ l.rate)

/-- State of `CircuitBreaker` (Q4.py lines 32-48). -/
structure CircuitBreaker where
  fail_threshold : ℕ
  reset_after : ℚ
  fail_count : ℕ
  open_until : ℚ
deriving DecidableEq, Repr

namespace CircuitBreaker

/-- `before` (lines 38-40), run at time `now`: returns the unchanged state
(the method mutates nothing) and whether it raises `RuntimeError("circuit-open")`,
which happens exactly when `now < open_until`. -/
def before (b : CircuitBreaker) (now : ℚ) : CircuitBreaker × Bool :=
  (b, decide (now < b.open_until))

/-- `success` (lines 42-43): resets the consecutive-failure count. -/
def success (b : CircuitBreaker) : CircuitBreaker :=
  { b with fail_count := 0 }

/-- `failure` (lines 45-48), run at time `now`: increments the failure count;
on reaching the threshold, opens the breaker until `now + reset_after` and
resets the count to zero. -/
def failure (b : CircuitBreaker) (now : ℚ) : CircuitBreaker :=
  if b.fail_count + 1 ≥ b.fail_threshold then
    { b with open_until := now + b.reset_after, fail_count := 0 }
  else
    { b with fail_count := b.fail_count + 1 }

end CircuitBreaker

/-- Iterated `failure` calls at the given sequence of times. -/
def failTimes (b : CircuitBreaker) (times : List ℚ) : CircuitBreaker :=
  times.foldl CircuitBreaker.failure b

/-- The last `c` elements of a list, in order: the contents of a
`deque(maxlen := c)` after pushing the whole list through it. -/
def keepLast {α : Type} (c : ℕ) (l : List α) : List α :=
  (l.reverse.take c).reverse

/-- Appending to a `deque(maxlen := c)` (Q4.py line 50): the sequence keeps
only the last `c` elements, so appending at capacity evicts the oldest. -/
def dlRecord {α : Type} (c : ℕ) (es : List α) (e : α) : List α :=
  (((es ++ [e]).reverse.take c)).reverse

/-- Python substring containment (`pat in s`) on character lists. -/
def subListOf (pat : List Char) : List Char → Bool
  | [] => pat.isEmpty
  | c :: rest => pat.isPrefixOf (c :: rest) || subListOf pat rest

/-- Python's `pat in s` on strings, as the code uses it at line 77
(`"retryable" not in str(e)`). -/
def strContains (s pat : String) : Bool :=
  subListOf pat.toList s.toList

/-- The response dict produced by the wrapped call (`resp = fn(*args, **kw)`,
line 62): `status` is `None`-able via `.get` (line 67), `rateHeader` is the
numeric value of `headers['X-Rate-Limit-RPS']` when that header is present
(lines 64-66; the demo sends numeric strings, which is the case the spec
describes), and `data` is the opaque payload returned on success (line 69). -/
structure Resp where
  status : Option ℤ
  rateHeader : Option ℚ
  data : ℤ
deriving DecidableEq, Repr

/-- What one invocation of the wrapped function `fn` does: return a response
dict, or raise an exception whose `str` is `msg`. -/
inductive CallOutcome where
  | ret (resp : Resp)
  | err (msg : String)
deriving DecidableEq, Repr

/-- External inputs consumed by one iteration of the wrapper's attempt loop:
the wall-clock times read by `breaker.before` and `breaker.failure`, the poll
times available to `rate.acquire`, the call's outcome, and the
`random.random()` draw used for backoff jitter. -/
structure AttemptEnv where
  tBefore : ℚ
  acquireTimes : List ℚ
  outcome : CallOutcome
  tFailure : ℚ
  rand : ℚ
deriving DecidableEq, Repr

/-- Configuration of the `resilient` decorator (lines 52-53). -/
structure WrapConfig where
  max_attempts : ℕ
  base_backoff : ℚ
deriving DecidableEq, Repr

/-- One dead-letter record (lines 73 and 78): the call's arguments (kept as an
opaque snapshot string) and the failure reason. -/
structure DLEntry where
  args : String
  reason : String
deriving DecidableEq, Repr

/-- Shared mutable state threaded through the wrapper: the limiter, the
breaker, and the module-level `dead_letter` deque.  Entries are recorded with
`dlRecord dlCapacity`; the source fixes the capacity at 10000 (line 50). -/
structure WState where
  rate : DynamicRateLimiter
  breaker : CircuitBreaker
  dead_letter : List DLEntry
deriving DecidableEq, Repr

/-- Capacity of the module-level dead-letter deque (line 50). -/
def dlCapacity : ℕ := 10000

/-- The retryable status set at line 70. -/
def retryableStatuses : List ℤ := [429, 500, 502, 503, 504]

/-- The backoff sleep duration at line 81 for attempt `k`:
`base_backoff * 2^(k-1) * (0.9 + 0.2 * random.random())`, where `r` is the
`random.random()` draw. -/
def backoffDelay (base : ℚ) (k : ℕ) (r : ℚ) : ℚ :=
  base * 2 ^ (k - 1) * (9/10 + (2/10) * r)

/-- How one iteration of the attempt loop ends. -/
inductive StepOut where
  | ok (d : ℤ)
  | raised (msg : String)
  | again (sleep : ℚ)
deriving DecidableEq, Repr

/-- The message of the exception produced by the bare `raise` at line 74.
At that point no exception is being handled, so Python raises
`RuntimeError("No active exception to reraise")` instead of re-raising
anything. -/
def bareRaiseMsg : String := "No active exception to reraise"

/-- The `except Exception as e` handler (lines 75-81) for attempt `k`, entered
with exception message `msg`: it calls `breaker.failure()`, then either
records to the dead-letter queue and re-raises (when the message does not
contain `"retryable"` or this was the last attempt), or sleeps the
exponential-backoff interval and lets the loop continue. -/
def handleExc (cfg : WrapConfig) (argsR : String) (st : WState) (msg : String)
    (tFail : ℚ) (r : ℚ) (k : ℕ) : WState × StepOut :=
  let st1 := { st with breaker := st.breaker.failure tFail }
  if !(strContains msg "retryable") || k == cfg.max_attempts then
    ({ st1 with dead_letter := dlRecord dlCapacity st1.dead_letter ⟨argsR, msg⟩ },
     .raised msg)
  else
    (st1, .again (backoffDelay cfg.base_backoff k r))

/-- Lines 64-66: if the response carries the `X-Rate-Limit-RPS` header, call
`rate.set_rate` with its value; otherwise leave the limiter alone. -/
def applyRateHeader (st : WState) (resp : Resp) : WState :=
  match resp.rateHeader with
  | some r => { st with rate := st.rate.set_rate r }
  | none => st

/-- Lines 67-74: classify a returned response (after the rate header has been
applied to produce `st2`).  Status 200 — explicit or defaulted — is terminal
success; a retryable status raises `RuntimeError("retryable")` into the
handler; any other status is recorded to the dead-letter queue, after which
the bare `raise` at line 74 (no active exception) raises
`RuntimeError("No active exception to reraise")` into the handler. -/
def classifyResp (cfg : WrapConfig) (argsR : String) (st2 : WState)
    (resp : Resp) (tFail : ℚ) (r : ℚ) (k : ℕ) : WState × StepOut :=
  if resp.status.getD 200 == 200 then
    ({ st2 with breaker := st2.breaker.success }, .ok resp.data)
  else if retryableStatuses.contains (resp.status.getD 200) then
    handleExc cfg argsR st2 "retryable" tFail r k
  else
    handleExc cfg argsR
      { st2 with dead_letter := (dlRecord dlCapacity st2.dead_letter
        ⟨argsR, "status-" ++ toString (resp.status.getD 200)⟩) }
      bareRaiseMsg tFail r k

/-- One iteration of the `for k in range(1, max_attempts+1)` loop
(lines 58-81).  `none` models an iteration that never finishes because
`rate.acquire()` did not obtain a token within the poll times supplied by the
environment (the real loop would still be blocked inside `acquire`). -/
def attemptStep (cfg : WrapConfig) (argsR : String) (st : WState)
    (env : AttemptEnv) (k : ℕ) : Option (WState × StepOut) :=
  if (st.breaker.before env.tBefore).2 then
    -- line 60 raised RuntimeError("circuit-open"); caught at line 75
    some (handleExc cfg argsR st "circuit-open" env.tFailure env.rand k)
  else
    let acq := st.rate.acquire 1 env.acquireTimes
    if !acq.2 then none
    else
      let st1 := { st with rate := acq.1 }
      match env.outcome with
      | .err m => some (handleExc cfg argsR st1 m env.tFailure env.rand k)
      | .ret resp =>
        -- lines 64-66: dynamic rate adjustment happens before classification
        some (classifyResp cfg argsR (applyRateHeader st1 resp) resp
          env.tFailure env.rand k)

/-- How a whole wrapper invocation ends: a returned payload, a raised
exception, or Python's implicit `return None` when the `for` loop runs out
(only reachable when `max_attempts < 1`). -/
inductive WrapOut where
  | ok (d : ℤ)
  | raised (msg : String)
  | retNone
deriving DecidableEq, Repr

/-- The attempt loop of `wrapper` (lines 58-81) from attempt `k` on, consuming
one environment per attempt and logging each backoff sleep.  `none` models a
run that blocks forever inside `acquire` or that the supplied environment list
is too short to decide. -/
def wrapperGo (cfg : WrapConfig) (argsR : String) :
    List AttemptEnv → ℕ → WState → List ℚ → Option (WState × WrapOut × List ℚ)
  | envs, k, st, sleeps =>
    if k > cfg.max_attempts then some (st, .retNone, sleeps)
    else
      match envs with
      | [] => none
      | env :: rest =>
        match attemptStep cfg argsR st env k with
        | none => none
        | some (st', .ok d) => some (st', .ok d, sleeps)
        | some (st', .raised m) => some (st', .raised m, sleeps)
        | some (st', .again s) => wrapperGo cfg argsR rest (k + 1) st' (sleeps ++ [s])

/-- `wrapper(*args, **kw)` (lines 57-81): run the attempt loop from `k = 1`
with an empty sleep log. -/
def wrapper (cfg : WrapConfig) (argsR : String) (st : WState)
    (envs : List AttemptEnv) : Option (WState × WrapOut × List ℚ) :=
  wrapperGo cfg argsR envs 1 st []

/-- In state `st`, the attempt described by `env` passes the breaker check,
obtains its token, and gets back a retryable status from the call. -/
def retryableAttempt (st : WState) (env : AttemptEnv) : Bool :=
  !(st.breaker.before env.tBefore).2 &&
  (st.rate.acquire 1 env.acquireTimes).2 &&
  (match env.outcome with
   | .ret resp => retryableStatuses.contains (resp.status.getD 200)
   | .err _ => false)

/-- Starting at attempt `k` in state `st`, every attempt of the run described
by `envs` is a retryable-status attempt. -/
def allRetryableRun (cfg : WrapConfig) (argsR : String) :
    List AttemptEnv → ℕ → WState → Bool
  | [], _, _ => true
  | env :: rest, k, st =>
    retryableAttempt st env &&
    (match attemptStep cfg argsR st env k with
     | some (st', _) => allRetryableRun cfg argsR rest (k + 1) st'
     | none => false)

/-! Concrete states and attempt environments, used to instantiate the
theorems below.  The numeric values follow the demo at Q4.py lines 86-87:
`DynamicRateLimiter(100.0, 200)` and `CircuitBreaker(5, 15)`. -/

/-- The demo limiter: rate 100, capacity 200, freshly constructed at time 0. -/
def lRef : DynamicRateLimiter := ⟨100, 200, 200, 0⟩

/-- The demo breaker: threshold 5, cooldown 15, initially closed. -/
def bRef : CircuitBreaker := ⟨5, 15, 0, 0⟩

/-- A demo breaker one failure short of its threshold. -/
def bAlmost : CircuitBreaker := ⟨5, 15, 4, 0⟩

/-- Initial shared state: demo limiter, demo breaker, empty dead letter. -/
def stRef : WState := ⟨lRef, bRef, []⟩

/-- Shared state whose breaker is open until time 100. -/
def stOpenRef : WState := ⟨lRef, ⟨5, 15, 0, 100⟩, []⟩

/-- The decorator's reference configuration (lines 52-53): `max_attempts = 6`,
`base_backoff = 0.3`. -/
def cfgRef : WrapConfig := ⟨6, 3/10⟩

/-- A two-attempt configuration, for short exhaustion runs. -/
def cfgTwo : WrapConfig := ⟨2, 3/10⟩

/-- An attempt whose call returns a non-retryable status 404. -/
def env404 : AttemptEnv := ⟨0, [0], .ret ⟨some 404, none, 7⟩, 0, 0⟩

/-- An attempt whose call returns the retryable status 500. -/
def env500 : AttemptEnv := ⟨0, [0, 1], .ret ⟨some 500, none, 0⟩, 0, 0⟩

/-- An attempt whose call returns status 429 advertising a new rate of 10. -/
def env429 : AttemptEnv := ⟨0, [0], .ret ⟨some 429, some 10, 0⟩, 0, 1/2⟩

/-- An attempt whose call returns a response with no `status` key. -/
def envNoStatus : AttemptEnv := ⟨0, [0], .ret ⟨none, none, 42⟩, 0, 0⟩

/-- A wellformed demo trace of limiter operations. -/
def opsRef : List LimOp := [.poll 0 1, .set_rate 10, .poll 1 1]

end Q4

namespace Q4

/-! ### Circuit-breaker theorems -/

/-- Iterated `failure` below the threshold only counts: as long as the
accumulated count stays strictly below the threshold, `open_until` (and every
other field) is untouched and the count adds up. -/
lemma failTimes_below_threshold : ∀ (times : List ℚ) (b : CircuitBreaker),
    b.fail_count + times.length < b.fail_threshold →
    failTimes b times = { b with fail_count := b.fail_count + times.length } := by
  intro times
  induction times with
  | nil => intro b _; simp [failTimes]
  | cons t rest ih =>
    intro b h
    have hlt : b.fail_count + 1 < b.fail_threshold := by
      simp only [List.length_cons] at h; omega
    have hstep : b.failure t = { b with fail_count := b.fail_count + 1 } := by
      unfold CircuitBreaker.failure
      rw [if_neg (by omega)]
    have h' : ({ b with fail_count := b.fail_count + 1 } :
        CircuitBreaker).fail_count + rest.length < b.fail_threshold := by
      simp only [List.length_cons] at h
      simp only []
      omega
    calc failTimes b (t :: rest)
        = failTimes (b.failure t) rest := by simp [failTimes]
      _ = { b with fail_count := b.fail_count + 1 + rest.length } := by
          rw [hstep, ih _ h']
      _ = { b with fail_count := b.fail_count + (t :: rest).length } := by
          simp only [List.length_cons]; congr 1; omega

/-- C8: `before()` fails with the circuit-open error exactly when the current
time is strictly before `open_until`; it changes no state, and its verdict
does not depend on `fail_count`. -/
theorem before_fails_iff_open (b : CircuitBreaker) (now : ℚ) (fc : ℕ) :
    ((b.before now).2 = true ↔ now < b.open_until) ∧
    (b.before now).1 = b ∧
    (({ b with fail_count := fc } : CircuitBreaker).before now).2
      = (b.before now).2 := by
  refine ⟨?_, rfl, rfl⟩
  simp [CircuitBreaker.before]

/-- C7: each `failure()` increments the consecutive-failure count; on reaching
the threshold it opens the breaker until `now + reset_after` and resets the
count to 0, so fewer than a full threshold of further failures cannot move
`open_until` again. -/
theorem failure_threshold_opens (b : CircuitBreaker) (now : ℚ) (times : List ℚ) :
    (b.fail_count + 1 < b.fail_threshold →
      (b.failure now).fail_count = b.fail_count + 1 ∧
      (b.failure now).open_until = b.open_until) ∧
    (b.fail_threshold ≤ b.fail_count + 1 →
      (b.failure now).open_until = now + b.reset_after ∧
      (b.failure now).fail_count = 0) ∧
    (b.fail_threshold ≤ b.fail_count + 1 → times.length < b.fail_threshold →
      (failTimes (b.failure now) times).open_until = now + b.reset_after) := by
  refine ⟨?_, ?_, ?_⟩
  · intro h
    unfold CircuitBreaker.failure
    rw [if_neg (by omega)]
    exact ⟨rfl, rfl⟩
  · intro h
    unfold CircuitBreaker.failure
    rw [if_pos (by omega)]
    exact ⟨rfl, rfl⟩
  · intro h hlen
    have hstep : b.failure now =
        { b with open_until := now + b.reset_after, fail_count := 0 } := by
      unfold CircuitBreaker.failure
      rw [if_pos (by omega)]
    rw [hstep, failTimes_below_threshold times _ (by simpa using hlen)]

/-- Witness for C7 at the demo breaker one failure short of its threshold:
the fifth failure at time 10 opens it until 25, and four further failures do
not move `open_until`. -/
theorem failure_threshold_opens_witness :
    ((bAlmost.failure 10).open_until = 10 + bAlmost.reset_after ∧
      (bAlmost.failure 10).fail_count = 0) ∧
    (failTimes (bAlmost.failure 10) [11, 12, 13, 14]).open_until
      = 10 + bAlmost.reset_after :=
  ⟨(failure_threshold_opens bAlmost 10 []).2.1 (by decide),
   (failure_threshold_opens bAlmost 10 [11, 12, 13, 14]).2.2 (by decide)
     (by decide)⟩

/-! ### Token-bucket theorems -/

/-- Reading the Boolean invariant as a proposition. -/
lemma limInv_iff (l : DynamicRateLimiter) :
    limInv l = true ↔ 0 ≤ l.tokens ∧ l.tokens ≤ l.capacity ∧ 0 ≤ l.rate := by
  simp [limInv, and_assoc]

/-- One polling iteration of `acquire` preserves the token-bucket invariant,
provided wall-clock time has not run backwards. -/
lemma acquirePoll_inv (l : DynamicRateLimiter) (now : ℚ) (n : ℕ)
    (h : limInv l = true) (hts : l.ts ≤ now) :
    limInv (l.acquirePoll now n).1 = true := by
  obtain ⟨h0, h1, h2⟩ := (limInv_iff l).mp h
  have hcap : (0 : ℚ) ≤ l.capacity := le_trans h0 h1
  have hre : (0 : ℚ) ≤ l.tokens + (now - l.ts) * l.rate :=
    add_nonneg h0 (mul_nonneg (sub_nonneg.mpr hts) h2)
  simp only [DynamicRateLimiter.acquirePoll]
  split
  case isTrue hge =>
    rw [limInv_iff]
    refine ⟨by simpa using sub_nonneg.mpr hge, ?_, h2⟩
    calc min l.capacity (l.tokens + (now - l.ts) * l.rate) - (n : ℚ)
        ≤ min l.capacity (l.tokens + (now - l.ts) * l.rate) := by
          simp [Nat.cast_nonneg n]
      _ ≤ l.capacity := min_le_left _ _
  case isFalse hlt =>
    rw [limInv_iff]
    exact ⟨le_min hcap hre, min_le_left _ _, h2⟩

/-- Any wellformed limiter operation preserves the invariant. -/
lemma limStep_inv (l : DynamicRateLimiter) (op : LimOp)
    (h : limInv l = true) (hop : limOpOK l op = true) :
    limInv (limStep l op) = true := by
  cases op with
  | set_rate r =>
    obtain ⟨h0, h1, _⟩ := (limInv_iff l).mp h
    rw [limStep, limInv_iff]
    refine ⟨h0, h1, ?_⟩
    simp only [DynamicRateLimiter.set_rate]
    exact le_trans (by norm_num) (le_max_left (1/1000 : ℚ) r)
  | poll now n =>
    simp only [limOpOK, Bool.and_eq_true, decide_eq_true_eq] at hop
    exact acquirePoll_inv l now n h hop.1

/-- C5: over any wellformed interleaving of `set_rate` calls and `acquire`
polling iterations, the stored tokens stay within `[0, capacity]` at every
observation point; moreover a polling iteration deducts (succeeds) exactly
when the post-refill, capacity-capped token count covers the request. -/
theorem tokens_stay_in_range (l : DynamicRateLimiter) (ops : List LimOp)
    (h0 : limInv l = true) (hwf : limWF l ops = true) :
    (∀ i : ℕ, limInv (limRun l (ops.take i)) = true) ∧
    (∀ (m : DynamicRateLimiter) (now : ℚ) (n : ℕ),
      (m.acquirePoll now n).2 = true ↔
        (n : ℚ) ≤ min m.capacity (m.tokens + (now - m.ts) * m.rate)) := by
  constructor
  · have main : ∀ (ops' : List LimOp) (l' : DynamicRateLimiter),
        limInv l' = true → limWF l' ops' = true →
        ∀ i : ℕ, limInv (limRun l' (ops'.take i)) = true := by
      intro ops'
      induction ops' with
      | nil =>
        intro l' h _ i
        simpa [limRun] using h
      | cons op rest ih =>
        intro l' h hwf' i
        simp only [limWF, Bool.and_eq_true] at hwf'
        cases i with
        | zero => simpa [limRun] using h
        | succ j =>
          have hstep := limStep_inv l' op h hwf'.1
          simpa [limRun, List.take_succ_cons] using
            ih (limStep l' op) hstep hwf'.2 j
    exact main ops l h0 hwf
  · intro m now n
    simp only [DynamicRateLimiter.acquirePoll]
    split
    case isTrue hge => simpa using hge
    case isFalse hlt => simpa using hlt

/-- Witness for C5 on the demo limiter and a concrete wellformed trace. -/
theorem tokens_stay_in_range_witness :
    limInv (limRun lRef (opsRef.take 3)) = true ∧
    ((lRef.acquirePoll 0 1).2 = true ↔
      ((1 : ℕ) : ℚ) ≤ min lRef.capacity (lRef.tokens + (0 - lRef.ts) * lRef.rate)) :=
  ⟨(tokens_stay_in_range lRef opsRef
      (of_decide_eq_true (by with_unfolding_all rfl))
      (of_decide_eq_true (by with_unfolding_all rfl))).1 3,
   (tokens_stay_in_range lRef opsRef
      (of_decide_eq_true (by with_unfolding_all rfl))
      (of_decide_eq_true (by with_unfolding_all rfl))).2 lRef 0 1⟩

/-! ### Dead-letter sink theorems -/

/-- `dlRecord` is literally "keep the last `c` elements of `es ++ [e]`". -/
lemma dlRecord_eq_keepLast {α : Type} (c : ℕ) (es : List α) (e : α) :
    dlRecord c es e = keepLast c (es ++ [e]) := rfl

lemma keepLast_length {α : Type} (c : ℕ) (l : List α) :
    (keepLast c l).length = min c l.length := by
  simp [keepLast]

lemma keepLast_of_length_le {α : Type} {c : ℕ} {l : List α}
    (h : l.length ≤ c) : keepLast c l = l := by
  rw [keepLast, List.take_of_length_le (by simpa using h), List.reverse_reverse]

/-- Keeping the last `c`, appending more, and keeping the last `c` again is
the same as keeping the last `c` of the whole sequence. -/
lemma keepLast_append_keepLast {α : Type} (c : ℕ) (xs ys : List α) :
    keepLast c (keepLast c xs ++ ys) = keepLast c (xs ++ ys) := by
  unfold keepLast
  simp only [List.reverse_append, List.reverse_reverse,
    List.take_append_eq_append_take, List.take_take]
  congr 2
  rw [Nat.min_eq_left (Nat.sub_le _ _)]

/-- Folding `dlRecord` from a within-capacity start keeps exactly the last
`c` elements of everything seen. -/
lemma foldl_dlRecord {α : Type} (c : ℕ) :
    ∀ (l acc : List α), acc.length ≤ c →
      l.foldl (dlRecord c) acc = keepLast c (acc ++ l) := by
  intro l
  induction l with
  | nil => intro acc h; simp [keepLast_of_length_le h]
  | cons x l ih =>
    intro acc h
    have hlen : (dlRecord c acc x).length ≤ c := by
      rw [dlRecord_eq_keepLast, keepLast_length]; exact min_le_left _ _
    rw [List.foldl_cons, ih _ hlen, dlRecord_eq_keepLast,
      keepLast_append_keepLast, List.append_assoc, List.singleton_append]

/-- Keeping the last `c` of a `(c+1)`-element list drops exactly the head. -/
lemma keepLast_of_length_succ {α : Type} {c : ℕ} {l : List α}
    (h : l.length = c + 1) : keepLast c l = l.tail := by
  cases l with
  | nil => simp at h
  | cons a t =>
    have ht : t.length = c := by simpa using h
    rw [keepLast, List.reverse_cons, ← ht, ← List.length_reverse t,
      List.take_left, List.reverse_reverse, List.tail_cons]

/-- C6: for every sequence of `record` calls on a deque of capacity `c ≥ 1`,
the entry count never exceeds `c`; a record performed at capacity evicts the
oldest entry and appends the newest; the newest entry is always retained; and
recording `c + 1` entries from empty leaves exactly the `c` most recent in
insertion order. -/
theorem dead_letter_fifo_bounded (α : Type) (c : ℕ) (hc : 1 ≤ c) :
    (∀ seq : List α, (seq.foldl (dlRecord c) []).length ≤ c) ∧
    (∀ (es : List α) (e : α), es.length = c → dlRecord c es e = es.tail ++ [e]) ∧
    (∀ (es : List α) (e : α), (dlRecord c es e).getLast? = some e) ∧
    (∀ seq : List α, seq.length = c + 1 → seq.foldl (dlRecord c) [] = seq.tail) := by
  refine ⟨?_, ?_, ?_, ?_⟩
  · intro seq
    rw [foldl_dlRecord c seq [] (by simp), List.nil_append, keepLast_length]
    exact min_le_left _ _
  · intro es e h
    cases es with
    | nil =>
      simp only [List.length_nil] at h
      omega
    | cons a t =>
      have ht : t.length + 1 = c := by simpa using h
      rw [dlRecord_eq_keepLast, keepLast_of_length_succ (by simp [← ht]),
        List.tail_cons, List.cons_append, List.tail_cons]
  · intro es e
    have h1 : keepLast c (es ++ [e]) =
        ((List.take (c - 1) (es ++ [e]).reverse.tail).reverse) ++ [e] := by
      rw [keepLast, List.reverse_append, List.reverse_singleton,
        List.singleton_append]
      obtain ⟨c', rfl⟩ : ∃ c', c = c' + 1 := ⟨c - 1, by omega⟩
      rw [List.take_succ_cons, List.reverse_cons, List.tail_cons]
      congr 2
    rw [dlRecord_eq_keepLast, h1, List.getLast?_concat]
  · intro seq h
    rw [foldl_dlRecord c seq [] (by simp), List.nil_append,
      keepLast_of_length_succ h]

/-- Witness for C6 with capacity 3: recording four entries leaves exactly the
three most recent, and a record at capacity evicts the oldest while keeping
the newest. -/
theorem dead_letter_fifo_bounded_witness :
    (([0, 1, 2, 3] : List ℕ).foldl (dlRecord 3) [] = ([0, 1, 2, 3] : List ℕ).tail) ∧
    (dlRecord 3 ([0, 1, 2] : List ℕ) 9 = ([0, 1, 2] : List ℕ).tail ++ [9]) ∧
    ((dlRecord 3 ([0, 1, 2] : List ℕ) 9).getLast? = some 9) :=
  ⟨(dead_letter_fifo_bounded ℕ 3 (by decide)).2.2.2 [0, 1, 2, 3] (by decide),
   (dead_letter_fifo_bounded ℕ 3 (by decide)).2.1 [0, 1, 2] 9 (by decide),
   (dead_letter_fifo_bounded ℕ 3 (by decide)).2.2.1 [0, 1, 2] 9⟩

/-! ### Backoff theorems -/

/-- C3: the delay slept after retryable attempt `k` is
`base * 2^(k-1) * jitter` for a jitter in `[0.9, 1.1]` (the code draws
`0.9 + 0.2 * random()`, which lies in that band), and for any jitter draws in
the band the delays within one invocation are strictly increasing in `k`. -/
theorem backoff_exponential_jittered (base r1 r2 : ℚ) (k : ℕ)
    (hbase : 0 < base) (h1 : 0 ≤ r1) (h1' : r1 ≤ 1)
    (h2 : 0 ≤ r2) (h2' : r2 ≤ 1) (hk : 1 ≤ k) :
    (∃ j : ℚ, backoffDelay base k r1 = base * 2 ^ (k - 1) * j ∧
      9/10 ≤ j ∧ j ≤ 11/10) ∧
    backoffDelay base k r1 < backoffDelay base (k + 1) r2 := by
  constructor
  · exact ⟨9/10 + (2/10) * r1, rfl, by linarith, by linarith⟩
  · unfold backoffDelay
    have hpow : (0 : ℚ) < 2 ^ (k - 1) := by positivity
    have hkk : k + 1 - 1 = k := rfl
    rw [hkk]
    have h2k : (2 : ℚ) ^ k = 2 * 2 ^ (k - 1) := by
      conv_lhs => rw [show k = (k - 1) + 1 by omega]
      rw [pow_succ]; ring
    rw [h2k]
    have hPpos : 0 < base * 2 ^ (k - 1) := mul_pos hbase hpow
    nlinarith [hPpos, mul_le_mul_of_nonneg_left h2 (le_of_lt hPpos),
      mul_le_mul_of_nonneg_left h1' (le_of_lt hPpos)]

/-- Witness for C3 at the reference backoff 0.3, jitter draws 0 and 1/2. -/
theorem backoff_exponential_jittered_witness :
    (∃ j : ℚ, backoffDelay (3/10) 1 0 = (3/10) * 2 ^ (1 - 1) * j ∧
      9/10 ≤ j ∧ j ≤ 11/10) ∧
    backoffDelay (3/10) 1 0 < backoffDelay (3/10) 2 (1/2) :=
  backoff_exponential_jittered (3/10) 0 (1/2) 1
    (of_decide_eq_true (by with_unfolding_all rfl))
    (of_decide_eq_true (by with_unfolding_all rfl))
    (of_decide_eq_true (by with_unfolding_all rfl))
    (of_decide_eq_true (by with_unfolding_all rfl))
    (of_decide_eq_true (by with_unfolding_all rfl))
    (by decide)

/-! ### Wrapper theorems -/

/-- C4: a breaker-open rejection goes through the same non-retryable failure
path as other terminal errors: `breaker.failure()` is called, one dead-letter
entry with reason "circuit-open" is recorded, and the error is re-raised at
once — no further attempt is consumed, no backoff is slept, and the limiter is
untouched. -/
theorem circuit_open_terminal_path (cfg : WrapConfig) (argsR : String)
    (st : WState) (env : AttemptEnv) (rest : List AttemptEnv) (k : ℕ)
    (sleeps : List ℚ) (hk : k ≤ cfg.max_attempts)
    (hopen : env.tBefore < st.breaker.open_until) :
    wrapperGo cfg argsR (env :: rest) k st sleeps =
      some ({ st with
              breaker := st.breaker.failure env.tFailure,
              dead_letter := (dlRecord dlCapacity st.dead_letter
                ⟨argsR, "circuit-open"⟩) },
            .raised "circuit-open", sleeps) := by
  have hko : ¬ k > cfg.max_attempts := by omega
  have hb : (st.breaker.before env.tBefore).2 = true := by
    simp [CircuitBreaker.before, hopen]
  have hsub : strContains "circuit-open" "retryable" = false := rfl
  rw [wrapperGo]
  simp [hko, attemptStep, hb, handleExc, hsub]

/-- Witness for C4: with the breaker open until time 100, a first attempt at
time 0 is rejected, counted as a failure, dead-lettered once and re-raised. -/
theorem circuit_open_terminal_path_witness :
    wrapperGo cfgRef "args" [env404] 1 stOpenRef [] =
      some ({ stOpenRef with
              breaker := stOpenRef.breaker.failure env404.tFailure,
              dead_letter := (dlRecord dlCapacity stOpenRef.dead_letter
                ⟨"args", "circuit-open"⟩) },
            .raised "circuit-open", []) :=
  circuit_open_terminal_path cfgRef "args" stOpenRef env404 [] 1 [] (by decide)
    (of_decide_eq_true (by with_unfolding_all rfl))

/-- The exception handler never touches the limiter. -/
lemma handleExc_rate (cfg : WrapConfig) (argsR : String) (st : WState)
    (msg : String) (tFail : ℚ) (r : ℚ) (k : ℕ) :
    ((handleExc cfg argsR st msg tFail r k).1).rate = st.rate := by
  unfold handleExc
  split <;> rfl

/-- The exception handler never touches the breaker fields beyond `failure`. -/
lemma handleExc_breaker (cfg : WrapConfig) (argsR : String) (st : WState)
    (msg : String) (tFail : ℚ) (r : ℚ) (k : ℕ) :
    ((handleExc cfg argsR st msg tFail r k).1).breaker = st.breaker.failure tFail := by
  unfold handleExc
  split <;> rfl

/-- Applying the rate header leaves breaker and dead letter untouched. -/
lemma applyRateHeader_breaker (st : WState) (resp : Resp) :
    (applyRateHeader st resp).breaker = st.breaker := by
  cases hr : resp.rateHeader <;> simp [applyRateHeader, hr]

lemma applyRateHeader_dead_letter (st : WState) (resp : Resp) :
    (applyRateHeader st resp).dead_letter = st.dead_letter := by
  cases hr : resp.rateHeader <;> simp [applyRateHeader, hr]

lemma applyRateHeader_rate (st : WState) (resp : Resp) (r : ℚ)
    (hdr : resp.rateHeader = some r) :
    (applyRateHeader st resp).rate = st.rate.set_rate r := by
  simp [applyRateHeader, hdr]

/-- When the breaker lets the attempt through, the token is acquired, and the
call returns a response, the attempt reduces to classifying that response on
the header-adjusted state. -/
lemma attemptStep_ret (cfg : WrapConfig) (argsR : String) (st : WState)
    (env : AttemptEnv) (k : ℕ) (resp : Resp)
    (hb : (st.breaker.before env.tBefore).2 = false)
    (hacq : (st.rate.acquire 1 env.acquireTimes).2 = true)
    (hout : env.outcome = .ret resp) :
    attemptStep cfg argsR st env k =
      some (classifyResp cfg argsR
        (applyRateHeader { st with rate := (st.rate.acquire 1 env.acquireTimes).1 }
          resp)
        resp env.tFailure env.rand k) := by
  simp only [attemptStep, hb, Bool.false_eq_true, if_false, hacq,
    Bool.not_true, hout]

/-- The classification step never touches the limiter. -/
lemma classifyResp_rate (cfg : WrapConfig) (argsR : String) (st2 : WState)
    (resp : Resp) (tFail : ℚ) (r : ℚ) (k : ℕ) :
    ((classifyResp cfg argsR st2 resp tFail r k).1).rate = st2.rate := by
  unfold classifyResp
  split
  · rfl
  split
  · rw [handleExc_rate]
  · rw [handleExc_rate]

/-- C9: when the response carries a rate header with value `r`, the attempt
calls `limiter.set_rate r` before classifying the status, so whatever the
classification outcome, the attempt's resulting limiter is the post-acquire
limiter with `set_rate r` applied — its rate is `max 0.001 r` for every
subsequent acquisition in the invocation chain. -/
theorem rate_header_reshapes_limiter (cfg : WrapConfig) (argsR : String)
    (st : WState) (env : AttemptEnv) (k : ℕ) (resp : Resp) (r : ℚ)
    (hclosed : ¬ env.tBefore < st.breaker.open_until)
    (hacq : (st.rate.acquire 1 env.acquireTimes).2 = true)
    (hout : env.outcome = .ret resp) (hdr : resp.rateHeader = some r) :
    ∃ st' out, attemptStep cfg argsR st env k = some (st', out) ∧
      st'.rate = ((st.rate.acquire 1 env.acquireTimes).1).set_rate r ∧
      st'.rate.rate = max (1/1000) r := by
  have hb : (st.breaker.before env.tBefore).2 = false := by
    simp [CircuitBreaker.before, hclosed]
  refine ⟨(classifyResp cfg argsR (applyRateHeader { st with
      rate := (st.rate.acquire 1 env.acquireTimes).1 } resp) resp
      env.tFailure env.rand k).1,
    (classifyResp cfg argsR (applyRateHeader { st with
      rate := (st.rate.acquire 1 env.acquireTimes).1 } resp) resp
      env.tFailure env.rand k).2, ?_, ?_, ?_⟩
  · rw [attemptStep_ret cfg argsR st env k resp hb hacq hout]
  · rw [classifyResp_rate, applyRateHeader_rate _ _ _ hdr]
  · rw [classifyResp_rate, applyRateHeader_rate _ _ _ hdr]
    rfl

/-- Witness for C9: a 429 response advertising rate 10 leaves the limiter's
rate at 10 even though the attempt itself fails. -/
theorem rate_header_reshapes_limiter_witness :
    ∃ st' out, attemptStep cfgTwo "args" stRef env429 1 = some (st', out) ∧
      st'.rate = ((stRef.rate.acquire 1 env429.acquireTimes).1).set_rate 10 ∧
      st'.rate.rate = max (1/1000) 10 :=
  rate_header_reshapes_limiter cfgTwo "args" stRef env429 1
    ⟨some 429, some 10, 0⟩ 10
    (of_decide_eq_true (by with_unfolding_all rfl))
    (of_decide_eq_true (by with_unfolding_all rfl))
    rfl rfl

/-- C10: a response with no `status` key is treated exactly like an explicit
status 200: the attempt behaves identically to the same attempt with
status 200, calls `breaker.success()`, and returns the payload. -/
theorem missing_status_defaults_to_success (cfg : WrapConfig) (argsR : String)
    (st : WState) (env : AttemptEnv) (k : ℕ) (resp : Resp)
    (hclosed : ¬ env.tBefore < st.breaker.open_until)
    (hacq : (st.rate.acquire 1 env.acquireTimes).2 = true)
    (hout : env.outcome = .ret resp) (hstat : resp.status = none) :
    attemptStep cfg argsR st env k =
      attemptStep cfg argsR st
        { env with outcome := .ret { resp with status := some 200 } } k ∧
    ∃ st', attemptStep cfg argsR st env k = some (st', .ok resp.data) ∧
      st'.breaker = st.breaker.success := by
  have hb : (st.breaker.before env.tBefore).2 = false := by
    simp [CircuitBreaker.before, hclosed]
  obtain ⟨s, hdr, d⟩ := resp
  simp only [] at hstat
  subst hstat
  constructor
  · rw [attemptStep_ret cfg argsR st env k _ hb hacq hout,
      attemptStep_ret cfg argsR st { env with outcome := .ret ⟨some 200, hdr, d⟩ }
        k ⟨some 200, hdr, d⟩ hb hacq rfl]
    rfl
  · rw [attemptStep_ret cfg argsR st env k _ hb hacq hout]
    refine ⟨_, rfl, ?_⟩
    show ((applyRateHeader { st with
      rate := (st.rate.acquire 1 env.acquireTimes).1 } ⟨none, hdr, d⟩).breaker).success
        = st.breaker.success
    rw [applyRateHeader_breaker]

/-- Witness for C10: a statusless response returns its payload and resets the
breaker's failure count. -/
theorem missing_status_defaults_to_success_witness :
    attemptStep cfgRef "args" stRef envNoStatus 1 =
      attemptStep cfgRef "args" stRef
        { envNoStatus with outcome := .ret ⟨some 200, none, 42⟩ } 1 ∧
    ∃ st', attemptStep cfgRef "args" stRef envNoStatus 1 =
        some (st', .ok 42) ∧
      st'.breaker = stRef.breaker.success :=
  missing_status_defaults_to_success cfgRef "args" stRef envNoStatus 1
    ⟨none, none, 42⟩
    (of_decide_eq_true (by with_unfolding_all rfl))
    (of_decide_eq_true (by with_unfolding_all rfl))
    rfl rfl

/-- C1 fails on the code: a call returning the non-retryable status 404 on
its first attempt appends TWO dead-letter entries, not one.  Line 73 records
the `status-404` entry, but the bare `raise` at line 74 has no active
exception, so Python raises `RuntimeError("No active exception to reraise")`;
the handler at lines 75-79 catches it, records a second entry with that
message as its reason, and propagates that `RuntimeError` — not an error
describing the 404 — to the caller. -/
theorem nonretryable_status_double_dead_letter :
    (wrapper cfgRef "args" stRef [env404]).map
        (fun x => (x.2.1, x.1.dead_letter)) =
      some (.raised bareRaiseMsg,
        [⟨"args", "status-404"⟩, ⟨"args", bareRaiseMsg⟩]) :=
  of_decide_eq_true (by with_unfolding_all rfl)

/-- C2's counterexample: with `max_attempts = 2` and both attempts returning
status 500, the wrapper propagates the internal `RuntimeError("retryable")`
itself — the very exception raised at line 71 inside the retry loop — so the
retryable-status error IS surfaced directly, and no distinct
max-attempts-exceeded error exists. -/
theorem retryable_error_surfaced_directly :
    (wrapper cfgTwo "args" stRef [env500, env500]).map
        (fun x => (x.2.1, x.1.dead_letter)) =
      some (.raised "retryable", [⟨"args", "retryable"⟩]) :=
  of_decide_eq_true (by with_unfolding_all rfl)

/-- A retryable status always falls into the `elif` at line 70: it is not 200. -/
lemma retryable_not_200 (s : ℤ)
    (hcon : retryableStatuses.contains s = true) : (s == 200) = false := by
  have h5 : s = 429 ∨ s = 500 ∨ s = 502 ∨ s = 503 ∨ s = 504 := by
    simpa [retryableStatuses] using hcon
  rcases h5 with h | h | h | h | h <;> rw [h] <;> rfl

/-- Classifying a retryable status enters the handler with message
`"retryable"`. -/
lemma classifyResp_retryable (cfg : WrapConfig) (argsR : String)
    (st2 : WState) (resp : Resp) (tFail : ℚ) (r : ℚ) (k : ℕ)
    (hcon : retryableStatuses.contains (resp.status.getD 200) = true) :
    classifyResp cfg argsR st2 resp tFail r k =
      handleExc cfg argsR st2 "retryable" tFail r k := by
  unfold classifyResp
  rw [retryable_not_200 _ hcon, hcon]
  simp

/-- On the final attempt, a retryable failure is dead-lettered with reason
`"retryable"` and re-raised. -/
lemma handleExc_retryable_last (cfg : WrapConfig) (argsR : String)
    (st : WState) (tFail : ℚ) (r : ℚ) (k : ℕ)
    (hk : (k == cfg.max_attempts) = true) :
    handleExc cfg argsR st "retryable" tFail r k =
      ({ st with
         breaker := st.breaker.failure tFail,
         dead_letter := (dlRecord dlCapacity st.dead_letter
           ⟨argsR, "retryable"⟩) },
       .raised "retryable") := by
  unfold handleExc
  rw [show strContains "retryable" "retryable" = true from rfl, hk]
  rfl

/-- Before the final attempt, a retryable failure only counts toward the
breaker and schedules an exponential-backoff sleep. -/
lemma handleExc_retryable_cont (cfg : WrapConfig) (argsR : String)
    (st : WState) (tFail : ℚ) (r : ℚ) (k : ℕ)
    (hk : (k == cfg.max_attempts) = false) :
    handleExc cfg argsR st "retryable" tFail r k =
      ({ st with breaker := st.breaker.failure tFail },
       .again (backoffDelay cfg.base_backoff k r)) := by
  unfold handleExc
  rw [show strContains "retryable" "retryable" = true from rfl, hk]
  rfl

/-- Exhaustion run, stated over the loop from any attempt `k`: if every
remaining attempt is a retryable-status attempt, the loop re-raises
`RuntimeError("retryable")` after the last one and appends exactly one
dead-letter entry, with reason `"retryable"`. -/
lemma allRetryable_wrapperGo (cfg : WrapConfig) (argsR : String) :
    ∀ (envs : List AttemptEnv) (k : ℕ) (st : WState) (sleeps : List ℚ),
      1 ≤ k → k ≤ cfg.max_attempts →
      envs.length + k = cfg.max_attempts + 1 →
      allRetryableRun cfg argsR envs k st = true →
      ∃ st' sleeps', wrapperGo cfg argsR envs k st sleeps =
          some (st', .raised "retryable", sleeps') ∧
        st'.dead_letter = (dlRecord dlCapacity st.dead_letter
          ⟨argsR, "retryable"⟩) := by
  intro envs
  induction envs with
  | nil =>
    intro k st sleeps hk1 hk2 hlen _
    simp only [List.length_nil] at hlen
    omega
  | cons env rest ih =>
    intro k st sleeps hk1 hk2 hlen hall
    simp only [allRetryableRun, Bool.and_eq_true] at hall
    obtain ⟨hatt, hrest⟩ := hall
    simp only [retryableAttempt, Bool.and_eq_true, Bool.not_eq_true'] at hatt
    obtain ⟨⟨hb, hacq⟩, hmatch⟩ := hatt
    cases hout : env.outcome with
    | err m =>
      rw [hout] at hmatch
      simp at hmatch
    | ret resp =>
      rw [hout] at hmatch
      have hstep := attemptStep_ret cfg argsR st env k resp hb hacq hout
      have hclass := classifyResp_retryable cfg argsR
        (applyRateHeader { st with
          rate := (st.rate.acquire 1 env.acquireTimes).1 } resp)
        resp env.tFailure env.rand k hmatch
      have hko : ¬ k > cfg.max_attempts := by omega
      cases hkmax : (k == cfg.max_attempts) with
      | true =>
        have hlast := handleExc_retryable_last cfg argsR
          (applyRateHeader { st with
            rate := (st.rate.acquire 1 env.acquireTimes).1 } resp)
          env.tFailure env.rand k hkmax
        rw [wrapperGo]
        simp only [hko, if_false, hstep, hclass, hlast]
        refine ⟨_, sleeps, rfl, ?_⟩
        simp [applyRateHeader_dead_letter]
      | false =>
        have hklt : k < cfg.max_attempts := by
          have hne : k ≠ cfg.max_attempts := by
            simpa using hkmax
          omega
        have hcont := handleExc_retryable_cont cfg argsR
          (applyRateHeader { st with
            rate := (st.rate.acquire 1 env.acquireTimes).1 } resp)
          env.tFailure env.rand k hkmax
        rw [hstep, hclass, hcont] at hrest
        have hlen' : rest.length + (k + 1) = cfg.max_attempts + 1 := by
          simp only [List.length_cons] at hlen
          omega
        obtain ⟨st', sleeps', hgo, hdl⟩ := ih (k + 1)
          ({ (applyRateHeader { st with
              rate := (st.rate.acquire 1 env.acquireTimes).1 } resp) with
            breaker := ((applyRateHeader { st with
              rate := (st.rate.acquire 1 env.acquireTimes).1 } resp)).breaker.failure
              env.tFailure })
          (sleeps ++ [backoffDelay cfg.base_backoff k env.rand])
          (by omega) (by omega) hlen' hrest
        rw [wrapperGo]
        simp only [hko, if_false, hstep, hclass, hcont]
        refine ⟨st', sleeps', hgo, ?_⟩
        rw [hdl]
        simp [applyRateHeader_dead_letter]

/-- C2 amended: when every attempt up to `max_attempts` yields a retryable
status, the wrapper records exactly one dead-letter entry (reason
`"retryable"`) and propagates the internal `RuntimeError("retryable")` itself
as the exhaustion signal — there is no distinct max-attempts-exceeded error
type in the code. -/
theorem retryable_exhaustion_raises_retryable (cfg : WrapConfig)
    (argsR : String) (st : WState) (envs : List AttemptEnv)
    (hmax : 1 ≤ cfg.max_attempts)
    (hlen : envs.length = cfg.max_attempts)
    (hall : allRetryableRun cfg argsR envs 1 st = true) :
    ∃ st' sleeps', wrapper cfg argsR st envs =
        some (st', .raised "retryable", sleeps') ∧
      st'.dead_letter = (dlRecord dlCapacity st.dead_letter
        ⟨argsR, "retryable"⟩) :=
  allRetryable_wrapperGo cfg argsR envs 1 st [] le_rfl hmax (by omega) hall

/-- Witness for the amended C2: two attempts, both returning 500, end in the
re-raised `RuntimeError("retryable")` with one dead-letter entry. -/
theorem retryable_exhaustion_raises_retryable_witness :
    ∃ st' sleeps', wrapper cfgTwo "args" stRef [env500, env500] =
        some (st', .raised "retryable", sleeps') ∧
      st'.dead_letter = (dlRecord dlCapacity stRef.dead_letter
        ⟨"args", "retryable"⟩) :=
  retryable_exhaustion_raises_retryable cfgTwo "args" stRef [env500, env500]
    (by decide) rfl (of_decide_eq_true (by with_unfolding_all rfl))

end Q4
